import Mathlib

/-!
# Verification of the interactive command / factory lifecycle engine

A shallow embedding of the command/resource lifecycle and transactional
geometry-update engine of an interactive 3D modeling editor, together with
proofs of the specified properties.

Embedded from the source:
* `CurveFactory.doUpdate` / `doCommit` / `doCancel` / `isValid`
  (src/commands/curve/CurveFactory.ts);
* `Command.title` / `Command.identifier` (src/commands/Command.ts);
* `Editor.undo` / `Editor.redo` entry points (src/editor/Editor.ts).

Components whose implementation files are not part of the provided sources
(the `GeometryFactory` base class, `CancellableRegistor`, `History`,
`ContourManager`) are modelled from the specification; each such definition
carries a doc comment starting with `Modelled from the spec:`.

Geometry is modelled with integer coordinates; the external geometry kernel
is an opaque collaborator, modelled as a success predicate on the inputs of
`SplineCurve` (per the spec it is a pure function per call).
-/

/-- A 3D point (models `THREE.Vector3` / `c3d.CartPoint3D`). Integer
coordinates suffice for the lifecycle properties under study. -/
structure Pt where
  x : Int
  y : Int
  z : Int
deriving DecidableEq, Repr

/-- A kernel spline curve as produced by `c3d.ActionCurve3D.SplineCurve`:
its control points, closedness flag, and space-type tag. This is the payload
wrapped in a `SpaceInstance` and handed to the Object Store. -/
structure Curve where
  pts : List Pt
  closed : Bool
  type : Nat
deriving DecidableEq, Repr

/-- The external geometry kernel, an opaque collaborator: `splineOk` tells
whether `SplineCurve(points, closed, type)` succeeds; on success the
resulting object is determined by the inputs (the kernel is consumed as a
pure function per call). -/
structure Kernel where
  splineOk : List Pt → Bool → Nat → Bool

/-- An Item of the Object Store: identifier, temporariness flag, and the
kernel object it owns. -/
structure Item where
  id : Nat
  temporary : Bool
  kernel : Curve
deriving DecidableEq, Repr

/-- The Object Store (GeometryDatabase): the list of live Items and the next
fresh identifier. -/
structure Store where
  items : List Item
  nextId : Nat
deriving DecidableEq, Repr

/-- `GeometryDatabase.addTemporaryItem`: registers a temporary Item with a
fresh identifier and returns its id (the id plays the role of the
`TemporaryObject` handle whose `cancel()` removes the Item). -/
def Store.addTemporaryItem (st : Store) (c : Curve) : Store × Nat :=
  ({ items := st.items ++ [⟨st.nextId, true, c⟩], nextId := st.nextId + 1 }, st.nextId)

/-- `GeometryDatabase.addItem`: registers a permanent Item with a fresh
identifier. -/
def Store.addItem (st : Store) (c : Curve) : Store × Nat :=
  ({ items := st.items ++ [⟨st.nextId, false, c⟩], nextId := st.nextId + 1 }, st.nextId)

/-- `TemporaryObject.cancel` through an optional handle (`this.temp?.cancel()`):
removes the referenced Item from the store; a `none` handle is a no-op. -/
def Store.cancelTemp (st : Store) (i : Option Nat) : Store :=
  match i with
  | none => st
  | some n => { st with items := st.items.filter (fun it => it.id ≠ n) }

/-- Number of temporary Items currently in the store. -/
def Store.tempCount (st : Store) : Nat :=
  (st.items.filter (fun it => it.temporary)).length

/-- `CurveFactory` (src/commands/curve/CurveFactory.ts): parameters
(`points`, `type`, `closed`, the pending `nextPoint`) and the non-owning
reference `temp` to its current temporary preview Item. -/
structure CurveFactory where
  points : List Pt
  type : Nat
  closed : Bool
  nextPoint : Option Pt
  temp : Option Nat
deriving DecidableEq, Repr

/-- The control-point list sent to the kernel by `doUpdate`: `points`, with
`nextPoint` appended as the last control point when present. -/
def CurveFactory.cartPoints (f : CurveFactory) : List Pt :=
  f.points ++ (match f.nextPoint with | some p => [p] | none => [])

/-- `CurveFactory.doUpdate`: returns unchanged if `points` is empty; else
calls the kernel on `cartPoints` and `addTemporaryItem` inside a try/catch
(a kernel failure is caught and logged, leaving the local `temp` unset);
afterwards, unconditionally, `this.temp?.cancel()` removes the previous
preview and `this.temp` becomes the local `temp` (the fresh id on success,
`none` on failure). -/
def CurveFactory.doUpdate (K : Kernel) (f : CurveFactory) (st : Store) :
    CurveFactory × Store :=
  if f.points.length = 0 then (f, st)
  else if K.splineOk f.cartPoints f.closed f.type then
    let r := st.addTemporaryItem ⟨f.cartPoints, f.closed, f.type⟩
    ({ f with temp := some r.2 }, r.1.cancelTemp f.temp)
  else
    ({ f with temp := none }, st.cancelTemp f.temp)

/-- `CurveFactory.isValid`: false when no points, or a single point with no
pending `nextPoint`; true otherwise. -/
def CurveFactory.isValid (f : CurveFactory) : Bool :=
  if f.points.length = 0 then false
  else if f.points.length = 1 ∧ f.nextPoint = none then false
  else true

/-- `CurveFactory.doCommit`: first `this.temp?.cancel()` removes the
remaining preview, then the kernel builds the permanent curve from `points`
only (no `nextPoint`), and `addItem` registers it; a kernel failure
propagates to the caller (no catch), with the store left in its
post-`cancel` state. The result triple is (factory, store, outcome). -/
def CurveFactory.doCommit (K : Kernel) (f : CurveFactory) (st : Store) :
    CurveFactory × Store × Except Unit Nat :=
  let st1 := st.cancelTemp f.temp
  if K.splineOk f.points f.closed f.type then
    let r := st1.addItem ⟨f.points, f.closed, f.type⟩
    (f, r.1, .ok r.2)
  else
    (f, st1, .error ())

/-- `CurveFactory.doCancel`: `this.temp?.cancel()` — removes the current
preview from the store (the `temp` field itself is not reset by this
method). -/
def CurveFactory.doCancel (f : CurveFactory) (st : Store) :
    CurveFactory × Store :=
  (f, st.cancelTemp f.temp)

/-! ## GeometryFactory wrapper (state machine, validation, error taxonomy)

The `GeometryFactory` base class file is not among the provided sources
(only its subclasses and callers are); its `update`/`commit`/`cancel`
wrappers are modelled from the specification. -/

/-- The error taxonomy of the spec relevant to factories. -/
inductive GError where
  | invalidParameters
  | kernelComputationFailed
deriving DecidableEq, Repr

/-- The Factory state machine of the spec:
`Idle → Previewing (via update) → { Committed | Cancelled }`. -/
inductive FTag where
  | idle
  | previewing
  | committed
  | cancelled
deriving DecidableEq, Repr

/-- A `GeometryFactory` wrapping a `CurveFactory`: the concrete factory
data together with the lifecycle tag of the state machine. -/
structure GFactory where
  curve : CurveFactory
  tag : FTag
deriving DecidableEq, Repr

/-- Modelled from the spec: `GeometryFactory.update` (base-class file not in
the provided sources) — validates the current parameters and returns without
side effects when they are invalid (never throwing for "not enough input
yet"); when valid it runs the subclass `doUpdate` and the factory is
previewing. -/
def GFactory.update (K : Kernel) (g : GFactory) (st : Store) :
    GFactory × Store :=
  if g.curve.isValid then
    let r := g.curve.doUpdate K st
    ({ curve := r.1, tag := .previewing }, r.2)
  else (g, st)

/-- Modelled from the spec: `GeometryFactory.commit` (base-class file not in
the provided sources) — fails with `InvalidParameters` and no state change
when the minimum required inputs were never supplied; otherwise runs the
subclass `doCommit`, entering the terminal `Committed` state on success and
surfacing `KernelComputationFailed` on kernel failure. -/
def GFactory.commit (K : Kernel) (g : GFactory) (st : Store) :
    GFactory × Store × Except GError Nat :=
  if g.curve.isValid then
    match g.curve.doCommit K st with
    | (f', st', .ok n) => ({ curve := f', tag := .committed }, st', .ok n)
    | (f', st', .error _) =>
        ({ curve := f', tag := g.tag }, st', .error .kernelComputationFailed)
  else (g, st, .error .invalidParameters)

/-- Modelled from the spec: `GeometryFactory.cancel` (base-class file not in
the provided sources) — idempotent, and a no-op once the factory is in a
terminal state (`Committed` or `Cancelled`); otherwise runs the subclass
`doCancel` and enters the terminal `Cancelled` state. -/
def GFactory.cancel (g : GFactory) (st : Store) : GFactory × Store :=
  if g.tag = .committed ∨ g.tag = .cancelled then (g, st)
  else
    let r := g.curve.doCancel st
    ({ curve := r.1, tag := .cancelled }, r.2)

/-! ## Asynchronous update stream (sequence numbers, last-write-wins)

`update()` calls suspend at the kernel call; completions may arrive out of
order. The per-factory in-flight sequence-number discipline that drops
superseded results lives in the `GeometryFactory` base class, which is not
among the provided sources; it is modelled from the spec. The store here is
restricted to the Items owned by the one factory under study, and the
parameters of a call are its control-point snapshot. -/

/-- An event of the asynchronous update stream: `issue p` issues a new
`update()` call whose parameter snapshot is `p`; `complete n` is the
completion of the in-flight kernel computation of call number `n`. -/
inductive UEvent where
  | issue (p : List Pt)
  | complete (n : Nat)
deriving DecidableEq, Repr

/-- State of the asynchronous update machinery of one factory: the number
of `update()` calls issued so far (`counter`, also the largest sequence
number), the in-flight calls with their parameter snapshots, the store
(restricted to this factory's Items), the factory's current preview handle,
and the parameters of the most recently issued call. -/
structure UState where
  counter : Nat
  pending : List (Nat × List Pt)
  store : Store
  temp : Option Nat
  lastIssued : Option (List Pt)
deriving DecidableEq, Repr

/-- The initial state: no calls issued, empty store, no preview. -/
def UState.init : UState :=
  { counter := 0, pending := [], store := ⟨[], 0⟩, temp := none, lastIssued := none }

/-- Modelled from the spec: one step of the per-factory sequence-number
discipline. Issuing a call stamps it with the next sequence number and puts
it in flight. A completion of call `n` is applied only when `n` is still
the maximum issued sequence number: then, as in `CurveFactory.doUpdate`,
the new temporary Item is added and the previous preview cancelled in one
atomic resumption; a superseded completion (`n < counter`) is discarded
with no effect on the store (`StaleComputation`, never surfaced).
A completion of an unknown call number is ignored. -/
def ustep (s : UState) : UEvent → UState
  | .issue p =>
      { s with
        counter := s.counter + 1
        pending := (s.counter + 1, p) :: s.pending
        lastIssued := some p }
  | .complete n =>
      match s.pending.find? (fun q => q.1 = n) with
      | none => s
      | some q =>
          let pending' := s.pending.filter (fun q' => q'.1 ≠ n)
          if n = s.counter then
            let r := s.store.addTemporaryItem ⟨q.2, false, 0⟩
            { s with
              pending := pending'
              store := r.1.cancelTemp s.temp
              temp := some r.2 }
          else
            { s with pending := pending' }

/-- Run the update machinery over a list of events from the initial state. -/
def urun (tr : List UEvent) : UState :=
  tr.foldl ustep UState.init

/-- The parameter snapshots of the `issue` events of a trace, in order. -/
def issuedParams (tr : List UEvent) : List (List Pt) :=
  tr.filterMap (fun e => match e with | .issue p => some p | .complete _ => none)

/-- The parameters reflected by the factory's current preview Item, if any. -/
def UState.tempParams (s : UState) : Option (List Pt) :=
  match s.temp with
  | none => none
  | some n => (s.store.items.find? (fun it => it.id = n)).map (fun it => it.kernel.pts)

/-- The inductive invariant of the asynchronous update machinery: the store
holds exactly the factory's current preview (or nothing); in-flight sequence
numbers lie in `[1, counter]`; an in-flight call carrying the maximal
sequence number carries the most recently issued parameters; and once no
in-flight call carries the maximal sequence number, the preview reflects the
most recently issued parameters. -/
def UInv (s : UState) : Prop :=
  (match s.temp with
   | none => s.store.items = []
   | some n => n < s.store.nextId ∧ ∃ c, s.store.items = [⟨n, true, c⟩])
  ∧ (∀ q ∈ s.pending, 1 ≤ q.1 ∧ q.1 ≤ s.counter)
  ∧ (∀ q ∈ s.pending, q.1 = s.counter → some q.2 = s.lastIssued)
  ∧ ((∀ q ∈ s.pending, q.1 ≠ s.counter) → s.tempParams = s.lastIssued)
  ∧ (s.counter = 0 → s.temp = none ∧ s.lastIssued = none)

theorem uinv_init : UInv UState.init := by
  refine ⟨?_, ?_, ?_, ?_, ?_⟩ <;> simp [UState.init, UState.tempParams]

theorem apply_store_shape (st : Store) (t : Option Nat) (c : Curve)
    (h : match t with
         | none => st.items = []
         | some m => m < st.nextId ∧ ∃ c', st.items = [⟨m, true, c'⟩]) :
    ((st.addTemporaryItem c).1.cancelTemp t).items = [⟨st.nextId, true, c⟩] := by
  cases t with
  | none =>
    simp only at h
    simp [Store.addTemporaryItem, Store.cancelTemp, h]
  | some m =>
    obtain ⟨hm, c', hc⟩ := h
    simp [Store.addTemporaryItem, Store.cancelTemp, hc, List.filter_cons,
      Nat.ne_of_gt hm]


theorem ustep_issue (s : UState) (p : List Pt) :
    ustep s (.issue p) =
      { s with
        counter := s.counter + 1
        pending := (s.counter + 1, p) :: s.pending
        lastIssued := some p } := rfl

theorem ustep_complete_unknown (s : UState) (n : Nat)
    (hfind : s.pending.find? (fun q => q.1 = n) = none) :
    ustep s (.complete n) = s := by
  simp [ustep, hfind]

theorem ustep_complete_apply (s : UState) (q0 : Nat × List Pt)
    (hfind : s.pending.find? (fun q => q.1 = s.counter) = some q0) :
    ustep s (.complete s.counter) =
      { s with
        pending := s.pending.filter (fun q' => q'.1 ≠ s.counter)
        store := (s.store.addTemporaryItem ⟨q0.2, false, 0⟩).1.cancelTemp s.temp
        temp := some (s.store.addTemporaryItem ⟨q0.2, false, 0⟩).2 } := by
  simp [ustep, hfind]

theorem ustep_complete_stale (s : UState) (n : Nat) (q0 : Nat × List Pt)
    (hfind : s.pending.find? (fun q => q.1 = n) = some q0) (hn : n ≠ s.counter) :
    ustep s (.complete n) =
      { s with pending := s.pending.filter (fun q' => q'.1 ≠ n) } := by
  simp [ustep, hfind, hn]

theorem uinv_step (s : UState) (e : UEvent) (h : UInv s) : UInv (ustep s e) := by
  obtain ⟨h1, h2, h3, h4, h5⟩ := h
  cases e with
  | issue p =>
    rw [ustep_issue]
    refine ⟨h1, ?_, ?_, ?_, ?_⟩
    · intro q hq
      rcases List.mem_cons.mp hq with rfl | hq
      · exact ⟨Nat.le_add_left 1 s.counter, Nat.le_refl _⟩
      · exact ⟨(h2 q hq).1, Nat.le_succ_of_le (h2 q hq).2⟩
    · intro q hq hqc
      rcases List.mem_cons.mp hq with rfl | hq
      · rfl
      · exact absurd hqc (Nat.ne_of_lt (Nat.lt_succ_of_le (h2 q hq).2))
    · intro hall
      exact absurd rfl (hall (s.counter + 1, p) (List.mem_cons_self _ _))
    · intro h0
      exact absurd h0 (Nat.succ_ne_zero _)
  | complete n =>
    cases hfind : s.pending.find? (fun q => q.1 = n) with
    | none =>
      rw [ustep_complete_unknown s n hfind]
      exact ⟨h1, h2, h3, h4, h5⟩
    | some q0 =>
      have hq0mem : q0 ∈ s.pending := List.mem_of_find?_eq_some hfind
      have hq0n : q0.1 = n := by simpa using List.find?_some hfind
      by_cases hn : n = s.counter
      · subst hn
        rw [ustep_complete_apply s q0 hfind]
        have hshape := apply_store_shape s.store s.temp ⟨q0.2, false, 0⟩ h1
        refine ⟨?_, ?_, ?_, ?_, ?_⟩
        · show (match some (s.store.addTemporaryItem ⟨q0.2, false, 0⟩).2 with
            | none => ((s.store.addTemporaryItem ⟨q0.2, false, 0⟩).1.cancelTemp s.temp).items = []
            | some m => m < ((s.store.addTemporaryItem ⟨q0.2, false, 0⟩).1.cancelTemp s.temp).nextId ∧
                ∃ c, ((s.store.addTemporaryItem ⟨q0.2, false, 0⟩).1.cancelTemp s.temp).items
                  = [⟨m, true, c⟩])
          refine ⟨?_, ⟨q0.2, false, 0⟩, hshape⟩
          cases htv : s.temp <;>
            simp [Store.addTemporaryItem, Store.cancelTemp, Nat.lt_succ_self]
        · intro q hq
          exact h2 q (List.mem_of_mem_filter hq)
        · intro q hq hqc
          have := (List.mem_filter.mp hq).2
          simp only [decide_eq_true_eq] at this
          exact absurd hqc this
        · intro _
          have hlast : some q0.2 = s.lastIssued := h3 q0 hq0mem hq0n
          show (match some (s.store.addTemporaryItem ⟨q0.2, false, 0⟩).2 with
            | none => (none : Option (List Pt))
            | some m =>
                ((((s.store.addTemporaryItem ⟨q0.2, false, 0⟩).1.cancelTemp s.temp).items.find?
                  (fun it => it.id = m)).map (fun it => it.kernel.pts))) = s.lastIssued
          rw [hshape]
          simpa [Store.addTemporaryItem] using hlast
        · intro h0
          have h01 : (1 : Nat) ≤ 0 :=
            le_trans (h2 q0 hq0mem).1 (h0 ▸ (h2 q0 hq0mem).2)
          exact absurd h01 (by simp)
      · rw [ustep_complete_stale s n q0 hfind hn]
        refine ⟨h1, ?_, ?_, ?_, h5⟩
        · intro q hq
          exact h2 q (List.mem_of_mem_filter hq)
        · intro q hq hqc
          exact h3 q (List.mem_of_mem_filter hq) hqc
        · intro hall
          apply h4
          intro q hq
          by_cases hqn : q.1 = n
          · rw [hqn]
            exact fun hc => hn hc
          · exact hall q (List.mem_filter.mpr ⟨hq, by simpa using hqn⟩)

theorem uinv_foldl (tr : List UEvent) :
    ∀ s : UState, UInv s → UInv (tr.foldl ustep s) := by
  induction tr with
  | nil => intro s h; exact h
  | cons e rest ih => intro s h; exact ih (ustep s e) (uinv_step s e h)

theorem uinv_urun (tr : List UEvent) : UInv (urun tr) :=
  uinv_foldl tr UState.init uinv_init

theorem tempCount_le_one_of_uinv (s : UState) (h : UInv s) :
    s.store.tempCount ≤ 1 := by
  obtain ⟨h1, -, -, -, -⟩ := h
  cases htv : s.temp with
  | none =>
    rw [htv] at h1
    simp only at h1
    simp [Store.tempCount, h1]
  | some m =>
    rw [htv] at h1
    obtain ⟨-, c, hc⟩ := h1
    simp [Store.tempCount, hc]

/-- The parameters of the most recently issued call, accumulated along the
trace (the call with the maximum sequence number among those issued). -/
def ulast (d : Option (List Pt)) : List UEvent → Option (List Pt)
  | [] => d
  | .issue p :: rest => ulast (some p) rest
  | .complete _ :: rest => ulast d rest

theorem ustep_lastIssued (s : UState) (e : UEvent) :
    (ustep s e).lastIssued =
      match e with
      | .issue p => some p
      | .complete _ => s.lastIssued := by
  cases e with
  | issue p => rfl
  | complete n =>
    cases hfind : s.pending.find? (fun q => q.1 = n) with
    | none => rw [ustep_complete_unknown s n hfind]
    | some q0 =>
      by_cases hn : n = s.counter
      · subst hn; rw [ustep_complete_apply s q0 hfind]
      · rw [ustep_complete_stale s n q0 hfind hn]

theorem foldl_lastIssued (tr : List UEvent) :
    ∀ s : UState, (tr.foldl ustep s).lastIssued = ulast s.lastIssued tr := by
  induction tr with
  | nil => intro s; rfl
  | cons e rest ih =>
    intro s
    rw [List.foldl_cons, ih (ustep s e), ustep_lastIssued]
    cases e <;> rfl

theorem ulast_eq_getLast? (tr : List UEvent) :
    ∀ d : Option (List Pt),
      ulast d tr =
        match (issuedParams tr).getLast? with
        | some p => some p
        | none => d := by
  induction tr with
  | nil => intro d; rfl
  | cons e rest ih =>
    intro d
    cases e with
    | issue p =>
      show ulast (some p) rest = _
      rw [ih (some p)]
      have hip : issuedParams (.issue p :: rest) = p :: issuedParams rest := rfl
      rw [hip, List.getLast?_cons]
      cases (issuedParams rest).getLast? <;> rfl
    | complete n =>
      show ulast d rest = _
      rw [ih d]
      rfl

theorem urun_lastIssued (tr : List UEvent) :
    (urun tr).lastIssued =
      match (issuedParams tr).getLast? with
      | some p => some p
      | none => none := by
  rw [urun, foldl_lastIssued tr UState.init]
  exact ulast_eq_getLast? tr none

/-- C1: for every sequence of `update()` calls (any interleaving of call
issues and in-flight kernel completions, including out-of-order stale
completions), the Object Store contains at most one temporary Item owned by
the factory — unconditionally, i.e. at every reachable instant, kernel
calls still in flight included; and once every issued call has completed,
the preview reflects the parameters of the call with the maximum sequence
number among all calls issued so far — a stale completion is discarded and
never applied to the visible preview. -/
theorem factory_update_last_write_wins (tr : List UEvent) :
    (urun tr).store.tempCount ≤ 1 ∧
      ((urun tr).pending = [] →
        (urun tr).tempParams = (issuedParams tr).getLast?) := by
  have hinv := uinv_urun tr
  refine ⟨tempCount_le_one_of_uinv (urun tr) hinv, ?_⟩
  intro hdone
  obtain ⟨h1, -, -, h4, h5⟩ := hinv
  have hnone : ∀ q ∈ (urun tr).pending, q.1 ≠ (urun tr).counter := by
    rw [hdone]; intro q hq; exact absurd hq (List.not_mem_nil q)
  rw [h4 hnone, urun_lastIssued tr]
  cases (issuedParams tr).getLast? <;> rfl

/-- Witness for C1: the spec's race scenario — two `update()` calls with
parameters `P1` then `P2`, where `P1`'s kernel call resolves after `P2`'s;
the final preview reflects `P2`, not `P1`, and the store holds exactly one
temporary Item. -/
theorem factory_update_last_write_wins_witness :
    (urun [.issue [⟨1, 0, 0⟩], .issue [⟨2, 0, 0⟩], .complete 2, .complete 1]).store.tempCount ≤ 1 ∧
      (urun [.issue [⟨1, 0, 0⟩], .issue [⟨2, 0, 0⟩], .complete 2, .complete 1]).tempParams
        = some [⟨2, 0, 0⟩] := by
  have h := factory_update_last_write_wins
    [.issue [⟨1, 0, 0⟩], .issue [⟨2, 0, 0⟩], .complete 2, .complete 1]
  exact ⟨h.1, by rw [h.2 (by decide)]; decide⟩

/-! ## Error handling and protocol of the factory (C2, C6, C7, C8, C10) -/

/-- A kernel that rejects every request (degenerate geometry everywhere);
used to exercise the failure paths at concrete inputs. -/
def Kfail : Kernel := ⟨fun _ _ _ => false⟩

/-- A kernel that accepts every request. -/
def Kok : Kernel := ⟨fun _ _ _ => true⟩

/-- Counterexample to C2 at a concrete input: a factory in the Previewing
state (valid parameters, preview Item 0 live in the store) whose kernel
call fails during `update()`. The code swallows the failure, but then runs
`this.temp?.cancel(); this.temp = temp` with the local `temp` unset, so the
prior preview Item is removed from the store — it does not remain. -/
theorem update_failure_clears_preview_counterexample :
    ((⟨0, true, ⟨[⟨0, 0, 0⟩], false, 0⟩⟩ : Item) ∈
        (⟨[⟨0, true, ⟨[⟨0, 0, 0⟩], false, 0⟩⟩], 1⟩ : Store).items) ∧
    (⟨[⟨0, 0, 0⟩, ⟨1, 0, 0⟩], 0, false, none, some 0⟩ : CurveFactory).isValid = true ∧
    (CurveFactory.doUpdate Kfail
        ⟨[⟨0, 0, 0⟩, ⟨1, 0, 0⟩], 0, false, none, some 0⟩
        ⟨[⟨0, true, ⟨[⟨0, 0, 0⟩], false, 0⟩⟩], 1⟩).2.items = [] := by
  refine ⟨List.mem_singleton_self _, by decide, by decide⟩

/-- C2 as amended: when the kernel call of `doUpdate` fails, the failure is
swallowed (the method returns normally) but the prior preview is cancelled —
the store is left with the factory's preview removed and the factory holds
no preview; when the kernel call of `doCommit` fails, the failure surfaces
to the caller and no permanent Item is added, but the temporary preview has
already been discarded (the store is left in its post-`cancel` state). -/
theorem factory_failure_handling (K : Kernel) (f : CurveFactory) (st : Store)
    (hne : f.points ≠ [])
    (hup : K.splineOk f.cartPoints f.closed f.type = false)
    (hco : K.splineOk f.points f.closed f.type = false) :
    f.doUpdate K st = ({ f with temp := none }, st.cancelTemp f.temp) ∧
    f.doCommit K st = (f, st.cancelTemp f.temp, .error ()) := by
  constructor
  · rw [CurveFactory.doUpdate, if_neg (by simpa using hne), if_neg (by simp [hup])]
  · rw [CurveFactory.doCommit]
    simp [hco]

/-- Witness for the amended C2 at the concrete previewing factory. -/
theorem factory_failure_handling_witness :
    CurveFactory.doUpdate Kfail
        ⟨[⟨0, 0, 0⟩, ⟨1, 0, 0⟩], 0, false, none, some 0⟩
        ⟨[⟨0, true, ⟨[⟨0, 0, 0⟩], false, 0⟩⟩], 1⟩
      = (⟨[⟨0, 0, 0⟩, ⟨1, 0, 0⟩], 0, false, none, none⟩, ⟨[], 1⟩) ∧
    CurveFactory.doCommit Kfail
        ⟨[⟨0, 0, 0⟩, ⟨1, 0, 0⟩], 0, false, none, some 0⟩
        ⟨[⟨0, true, ⟨[⟨0, 0, 0⟩], false, 0⟩⟩], 1⟩
      = (⟨[⟨0, 0, 0⟩, ⟨1, 0, 0⟩], 0, false, none, some 0⟩, ⟨[], 1⟩, .error ()) := by
  have h := factory_failure_handling Kfail
    ⟨[⟨0, 0, 0⟩, ⟨1, 0, 0⟩], 0, false, none, some 0⟩
    ⟨[⟨0, true, ⟨[⟨0, 0, 0⟩], false, 0⟩⟩], 1⟩
    (by decide) (by decide) (by decide)
  exact ⟨h.1.trans rfl, h.2.trans rfl⟩

/-- C6: a Factory on which the minimum required inputs were never supplied
(no points set) fails `commit()` with `InvalidParameters` and causes no
state change — the factory and the Object Store (hence its item count and
contents) are returned untouched. -/
theorem commit_without_inputs_invalid_parameters (K : Kernel) (g : GFactory)
    (st : Store) (h : g.curve.points = []) :
    g.commit K st = (g, st, .error .invalidParameters) := by
  rw [GFactory.commit, if_neg]
  simp [CurveFactory.isValid, h]

/-- Witness for C6: a fresh factory with no parameters set. -/
theorem commit_without_inputs_invalid_parameters_witness :
    GFactory.commit Kok ⟨⟨[], 0, false, none, none⟩, .idle⟩ ⟨[], 0⟩
      = (⟨⟨[], 0, false, none, none⟩, .idle⟩, ⟨[], 0⟩, .error .invalidParameters) :=
  commit_without_inputs_invalid_parameters Kok ⟨⟨[], 0, false, none, none⟩, .idle⟩
    ⟨[], 0⟩ rfl

/-- C7: after a `commit()` that succeeded (after any number of `update()`
calls), `cancel()` is a no-op — it removes nothing from the store and
changes no state, and leaves the factory `Committed` (never flipping it to
`Cancelled`); moreover `cancel()` is idempotent on every factory. -/
theorem cancel_after_commit_noop (K : Kernel) (g g' : GFactory)
    (st st' : Store) (n : Nat) (hcommit : g.commit K st = (g', st', .ok n)) :
    g'.cancel st' = (g', st') ∧ g'.tag = .committed ∧
      ∀ (g2 : GFactory) (st2 : Store),
        (g2.cancel st2).1.cancel (g2.cancel st2).2 = g2.cancel st2 := by
  have htag : g'.tag = .committed := by
    rw [GFactory.commit] at hcommit
    by_cases hv : g.curve.isValid
    · rw [if_pos hv] at hcommit
      rw [CurveFactory.doCommit] at hcommit
      by_cases hk : K.splineOk g.curve.points g.curve.closed g.curve.type
      · simp only [hk, if_true] at hcommit
        have hfst : ({ curve := g.curve, tag := FTag.committed } : GFactory) = g' :=
          congrArg Prod.fst hcommit
        rw [← hfst]
      · simp only [hk, if_false] at hcommit
        simp at hcommit
    · rw [if_neg hv] at hcommit
      simp at hcommit
  refine ⟨?_, htag, ?_⟩
  · rw [GFactory.cancel, if_pos (Or.inl htag)]
  · intro g2 st2
    by_cases h2 : g2.tag = .committed ∨ g2.tag = .cancelled
    · have hc : g2.cancel st2 = (g2, st2) := by
        rw [GFactory.cancel, if_pos h2]
      rw [hc]
      exact hc
    · have hc : g2.cancel st2 =
          ({ curve := g2.curve, tag := .cancelled }, st2.cancelTemp g2.curve.temp) := by
        rw [GFactory.cancel, if_neg h2]
        rfl
      rw [hc]
      rw [GFactory.cancel, if_pos (Or.inr rfl)]

/-- Witness for C7: commit a valid two-point curve, then cancel. -/
theorem cancel_after_commit_noop_witness :
    GFactory.cancel
        ⟨⟨[⟨0, 0, 0⟩, ⟨1, 0, 0⟩], 0, false, none, none⟩, .committed⟩ ⟨[⟨0, false, ⟨[⟨0, 0, 0⟩, ⟨1, 0, 0⟩], false, 0⟩⟩], 1⟩
      = (⟨⟨[⟨0, 0, 0⟩, ⟨1, 0, 0⟩], 0, false, none, none⟩, .committed⟩,
          ⟨[⟨0, false, ⟨[⟨0, 0, 0⟩, ⟨1, 0, 0⟩], false, 0⟩⟩], 1⟩) := by
  have h := cancel_after_commit_noop Kok
    ⟨⟨[⟨0, 0, 0⟩, ⟨1, 0, 0⟩], 0, false, none, none⟩, .previewing⟩
    ⟨⟨[⟨0, 0, 0⟩, ⟨1, 0, 0⟩], 0, false, none, none⟩, .committed⟩
    ⟨[], 0⟩ ⟨[⟨0, false, ⟨[⟨0, 0, 0⟩, ⟨1, 0, 0⟩], false, 0⟩⟩], 1⟩ 0 rfl
  exact h.1

/-- C8: when the current parameters are invalid (not enough input yet, e.g.
an empty points list), `update()` returns without side effects — the
factory, the store and the existing preview are unchanged and nothing is
thrown (the function returns normally); in particular the subclass
`doUpdate` itself returns unchanged on an empty points list. -/
theorem update_invalid_no_side_effects (K : Kernel) (g : GFactory)
    (f : CurveFactory) (st st2 : Store)
    (h1 : g.curve.isValid = false) (h2 : f.points = []) :
    g.update K st = (g, st) ∧ f.doUpdate K st2 = (f, st2) := by
  constructor
  · rw [GFactory.update, if_neg (by simp [h1])]
  · rw [CurveFactory.doUpdate, if_pos (by simp [h2])]

/-- Witness for C8: a factory holding a single point and no pending point. -/
theorem update_invalid_no_side_effects_witness :
    GFactory.update Kok ⟨⟨[⟨0, 0, 0⟩], 0, false, none, none⟩, .idle⟩ ⟨[], 0⟩
        = (⟨⟨[⟨0, 0, 0⟩], 0, false, none, none⟩, .idle⟩, ⟨[], 0⟩) ∧
      CurveFactory.doUpdate Kok ⟨[], 0, false, none, none⟩ ⟨[], 5⟩
        = (⟨[], 0, false, none, none⟩, ⟨[], 5⟩) :=
  update_invalid_no_side_effects Kok ⟨⟨[⟨0, 0, 0⟩], 0, false, none, none⟩, .idle⟩
    ⟨[], 0, false, none, none⟩ ⟨[], 0⟩ ⟨[], 5⟩ (by decide) rfl

/-- C10: with a pending `nextPoint`, the preview built by `doUpdate` has
`nextPoint` as the curve's last control point (`points ++ [q]`), while
`doCommit` builds the permanent curve from `points` only and registers it
with `addItem` applied to the store from which the remaining temporary
preview has already been cancelled (`cancel` happens before the add). -/
theorem nextPoint_preview_only (K : Kernel) (f : CurveFactory) (st : Store)
    (q : Pt) (hnp : f.nextPoint = some q) (hne : f.points ≠ [])
    (hk1 : K.splineOk f.cartPoints f.closed f.type = true)
    (hk2 : K.splineOk f.points f.closed f.type = true) :
    f.doUpdate K st =
      ({ f with temp := some st.nextId },
        (st.addTemporaryItem ⟨f.points ++ [q], f.closed, f.type⟩).1.cancelTemp f.temp) ∧
    f.doCommit K st =
      (f, ((st.cancelTemp f.temp).addItem ⟨f.points, f.closed, f.type⟩).1,
        .ok ((st.cancelTemp f.temp).addItem ⟨f.points, f.closed, f.type⟩).2) := by
  have hcart : f.cartPoints = f.points ++ [q] := by
    rw [CurveFactory.cartPoints, hnp]
  constructor
  · rw [CurveFactory.doUpdate, if_neg (by simpa using hne), if_pos (by simp [hk1]), hcart]
    rfl
  · rw [CurveFactory.doCommit]
    simp [hk2]


/-- Witness for C10: two fixed points plus a pending third. -/
theorem nextPoint_preview_only_witness :
    CurveFactory.doUpdate Kok
        ⟨[⟨0, 0, 0⟩, ⟨1, 0, 0⟩], 0, false, some ⟨2, 0, 0⟩, none⟩ ⟨[], 0⟩
      = (⟨[⟨0, 0, 0⟩, ⟨1, 0, 0⟩], 0, false, some ⟨2, 0, 0⟩, some 0⟩,
          ⟨[⟨0, true, ⟨[⟨0, 0, 0⟩, ⟨1, 0, 0⟩, ⟨2, 0, 0⟩], false, 0⟩⟩], 1⟩) ∧
    CurveFactory.doCommit Kok
        ⟨[⟨0, 0, 0⟩, ⟨1, 0, 0⟩], 0, false, some ⟨2, 0, 0⟩, none⟩ ⟨[], 0⟩
      = (⟨[⟨0, 0, 0⟩, ⟨1, 0, 0⟩], 0, false, some ⟨2, 0, 0⟩, none⟩,
          ⟨[⟨0, false, ⟨[⟨0, 0, 0⟩, ⟨1, 0, 0⟩], false, 0⟩⟩], 1⟩, .ok 0) := by
  have h := nextPoint_preview_only Kok
    ⟨[⟨0, 0, 0⟩, ⟨1, 0, 0⟩], 0, false, some ⟨2, 0, 0⟩, none⟩ ⟨[], 0⟩ ⟨2, 0, 0⟩
    rfl (by decide) (by decide) (by decide)
  exact ⟨h.1.trans rfl, h.2.trans rfl⟩

/-! ## Resource / Cancellable Task Node (C4)

The `CancellableRegistor` / `Resource` implementation (`src/util/Cancellable`)
is not among the provided sources (only `Command extends CancellableRegistor`
and the `.resource(this)` registrations are); the task-node tree and its
cancellation propagation are modelled from the spec. -/

/-- Lifecycle state of a Resource: `active → finished` or
`active → cancelled`, one-way, at most once. -/
inductive LState where
  | active
  | finished
  | cancelled
deriving DecidableEq, Repr

/-- Modelled from the spec: a Cancellable Task Node (`CancellableRegistor`,
not among the provided sources): identifier, lifecycle state, a flag saying
whether this resource's own cleanup throws, and the owned child Resources in
registration order (oldest first, youngest last). -/
inductive Res where
  | node (id : Nat) (st : LState) (throws : Bool) (children : List Res)

mutual

/-- Modelled from the spec: `cancel()` on a task node. A node that has
already transitioned (finished or cancelled) is a no-op — each child
receives the method exactly once regardless of how many times the parent's
method is invoked. Otherwise every owned child is cancelled,
youngest-registered first, and the node transitions to `cancelled`. An
exception thrown by a child's cleanup (its `throws` flag) is caught and
logged, never allowed to abort sibling cleanup, so propagation is total;
the returned log lists each resource on which `cancel` took effect, in
invocation order. -/
def cancelR : Res → Res × List Nat
  | .node i s thr cs =>
    if s = .active then
      let r := cancelChildren cs
      (.node i .cancelled thr r.1, r.2 ++ [i])
    else (.node i s thr cs, [])

/-- Cancel a registration-ordered child list, youngest (last) first. -/
def cancelChildren : List Res → List Res × List Nat
  | [] => ([], [])
  | c :: rest =>
    let rr := cancelChildren rest
    let rc := cancelR c
    (rc.1 :: rr.1, rr.2 ++ rc.2)

end

mutual

/-- All node identifiers of a tree, parent first, oldest child first. -/
def nodeIds : Res → List Nat
  | .node i _ _ cs => i :: nodeIdsList cs

def nodeIdsList : List Res → List Nat
  | [] => []
  | c :: rest => nodeIds c ++ nodeIdsList rest

end

mutual

/-- The youngest-registered-first enumeration of a tree's identifiers:
children in reverse registration order, each before its parent. -/
def revIds : Res → List Nat
  | .node i _ _ cs => revIdsList cs ++ [i]

def revIdsList : List Res → List Nat
  | [] => []
  | c :: rest => revIdsList rest ++ revIds c

end

mutual

/-- Whether every resource of the tree is still active. -/
def allActive : Res → Bool
  | .node _ s _ cs => s = LState.active && allActiveList cs

def allActiveList : List Res → Bool
  | [] => true
  | c :: rest => allActive c && allActiveList rest

end

mutual

/-- Reassign the `throws` flags of a tree (which cleanups fail). -/
def setThrows (b : Nat → Bool) : Res → Res
  | .node i s _ cs => .node i s (b i) (setThrowsList b cs)

def setThrowsList (b : Nat → Bool) : List Res → List Res
  | [] => []
  | c :: rest => setThrows b c :: setThrowsList b rest

end

mutual

theorem cancelR_log (t : Res) (h : allActive t = true) :
    (cancelR t).2 = revIds t := by
  cases t with
  | node i s thr cs =>
    rw [allActive] at h
    simp only [Bool.and_eq_true, decide_eq_true_eq] at h
    rw [cancelR, if_pos h.1, revIds]
    simp only
    rw [cancelChildren_log cs h.2]

theorem cancelChildren_log (cs : List Res) (h : allActiveList cs = true) :
    (cancelChildren cs).2 = revIdsList cs := by
  cases cs with
  | nil => rfl
  | cons c rest =>
    rw [allActiveList] at h
    simp only [Bool.and_eq_true] at h
    rw [cancelChildren, revIdsList]
    simp only
    rw [cancelChildren_log rest h.2, cancelR_log c h.1]

end

mutual

theorem revIds_perm (t : Res) : (revIds t).Perm (nodeIds t) := by
  cases t with
  | node i s thr cs =>
    rw [revIds, nodeIds]
    refine ((revIdsList_perm cs).append (List.Perm.refl [i])).trans ?_
    rw [← List.singleton_append]
    exact List.perm_append_comm

theorem revIdsList_perm (cs : List Res) :
    (revIdsList cs).Perm (nodeIdsList cs) := by
  cases cs with
  | nil => exact List.Perm.refl _
  | cons c rest =>
    rw [revIdsList, nodeIdsList]
    exact List.perm_append_comm.trans
      ((revIds_perm c).append (revIdsList_perm rest))

end

theorem cancelR_idempotent (t : Res) :
    cancelR (cancelR t).1 = ((cancelR t).1, []) := by
  cases t with
  | node i s thr cs =>
    by_cases h : s = LState.active
    · rw [cancelR, if_pos h]
      simp only
      rw [cancelR, if_neg (by simp)]
    · rw [cancelR, if_neg h]
      simp only
      rw [cancelR, if_neg h]

mutual

theorem cancelR_throws_indep (b : Nat → Bool) (t : Res) :
    (cancelR (setThrows b t)).2 = (cancelR t).2 := by
  cases t with
  | node i s thr cs =>
    rw [setThrows, cancelR, cancelR]
    by_cases h : s = LState.active
    · rw [if_pos h, if_pos h]
      simp only
      rw [cancelChildren_throws_indep b cs]
    · rw [if_neg h, if_neg h]

theorem cancelChildren_throws_indep (b : Nat → Bool) (cs : List Res) :
    (cancelChildren (setThrowsList b cs)).2 = (cancelChildren cs).2 := by
  cases cs with
  | nil => rfl
  | cons c rest =>
    rw [setThrowsList, cancelChildren, cancelChildren]
    simp only
    rw [cancelChildren_throws_indep b rest, cancelR_throws_indep b c]

end

/-- C4: cancelling a Command's task-node tree of Resources (all still
active, distinct identifiers) invokes `cancel` on every Resource in
youngest-registered-first order — each exactly once (repeating the parent's
`cancel` invokes nothing further), and the set of invocations is
independent of which resources throw during cleanup: a throwing cleanup is
caught and does not prevent `cancel` from reaching the remaining
Resources. -/
theorem command_cancel_each_resource_once (t : Res) (b : Nat → Bool)
    (h : allActive t = true) (hnd : (nodeIds t).Nodup) :
    (cancelR t).2 = revIds t ∧
      (∀ i ∈ nodeIds t, (cancelR t).2.count i = 1) ∧
      cancelR (cancelR t).1 = ((cancelR t).1, []) ∧
      (cancelR (setThrows b t)).2 = (cancelR t).2 := by
  refine ⟨cancelR_log t h, ?_, cancelR_idempotent t, cancelR_throws_indep b t⟩
  intro i hi
  rw [cancelR_log t h]
  rw [(revIds_perm t).count_eq]
  exact List.count_eq_one_of_mem hnd hi

/-- Witness for C4: a Command owning three Resources, the middle one
throwing during cleanup; cancellation reaches all three, youngest first,
exactly once, and a second `cancel` on the parent does nothing. -/
theorem command_cancel_each_resource_once_witness :
    (cancelR (.node 0 .active false
        [.node 1 .active false [], .node 2 .active true [], .node 3 .active false []])).2
      = [3, 2, 1, 0] ∧
    (∀ i ∈ [0, 1, 2, 3],
      (cancelR (.node 0 .active false
        [.node 1 .active false [], .node 2 .active true [], .node 3 .active false []])).2.count i = 1) := by
  have h := command_cancel_each_resource_once
    (.node 0 .active false
      [.node 1 .active false [], .node 2 .active true [], .node 3 .active false []])
    (fun _ => false) rfl (by decide)
  refine ⟨h.1.trans rfl, ?_⟩
  intro i hi
  exact h.2.1 i hi

/-! ## History snapshots and the editor undo/redo entry points (C3)

Only the `Editor.undo` / `Editor.redo` entry points are among the provided
sources; the `History` / `EditorOriginator` snapshot machinery is modelled
from the spec. `S` stands for the serialized form of the full editable
state (Object Store contents plus selection), so equality in `S` is
byte-for-byte serialized equality. -/

/-- Modelled from the spec: the History of snapshots (`History` /
`EditorOriginator`, not among the provided sources). `entries` is the
ordered snapshot sequence — one snapshot taken after every Command that
finishes successfully, the first entry being the initial state — and
`cursor` indexes the snapshot corresponding to the current committed
state. -/
structure Machine (S : Type) where
  current : S
  entries : List S
  cursor : Nat

/-- Modelled from the spec: a Command finishing successfully with net state
change `f` — the state mutates, the entries after the cursor are truncated
(linear history, no branching) and a snapshot of the new state is appended,
the cursor moving onto it. -/
def Machine.commitCommand {S : Type} (m : Machine S) (f : S → S) : Machine S :=
  { current := f m.current
    entries := m.entries.take (m.cursor + 1) ++ [f m.current]
    cursor := m.cursor + 1 }

/-- Modelled from the spec: `History.undo()` — restores the Object Store
and selection to the previous snapshot and moves the cursor back one; a
no-op at the beginning of history. -/
def Machine.undoH {S : Type} (m : Machine S) : Machine S :=
  if m.cursor = 0 then m
  else
    match m.entries[m.cursor - 1]? with
    | some s => { m with current := s, cursor := m.cursor - 1 }
    | none => m

/-- Modelled from the spec: `History.redo()` — symmetric to `undo`, restores
the following snapshot and moves the cursor forward one. -/
def Machine.redoH {S : Type} (m : Machine S) : Machine S :=
  match m.entries[m.cursor + 1]? with
  | some s => { m with current := s, cursor := m.cursor + 1 }
  | none => m

/-- The editor state seen by the undo/redo entry points: the History
machine over the serialized editable state, plus the task-node tree of the
currently active command, if any. -/
structure EditorSt (S : Type) where
  machine : Machine S
  active : Option Res

/-- `Editor.undo` (src/editor/Editor.ts): first
`executor.cancelActiveCommand()` cancels the active command's task node,
then `history.undo()` restores the previous snapshot and moves the cursor
back one (the default command re-enqueued afterwards owns no resources). -/
def editorUndo {S : Type} (e : EditorSt S) : EditorSt S :=
  { machine := e.machine.undoH
    active := e.active.map (fun r => (cancelR r).1) }

/-- `Editor.redo` (src/editor/Editor.ts): cancels the active command, then
`history.redo()`. -/
def editorRedo {S : Type} (e : EditorSt S) : EditorSt S :=
  { machine := e.machine.redoH
    active := e.active.map (fun r => (cancelR r).1) }

/-- C3: for every Command with net state change `f` finishing successfully
from a consistent history position (the cursor's snapshot is the current
state — guaranteed since a snapshot is taken after every finished Command),
the editor's undo entry point cancels the active command's task node and
restores the serialized state to exactly the state before the Command
started, moving the cursor back one; a subsequent redo restores the
serialized state immediately after the Command finished. -/
theorem undo_redo_restore_serialized {S : Type} (m : Machine S) (f : S → S)
    (r : Option Res) (hsnap : m.entries[m.cursor]? = some m.current) :
    (editorUndo ⟨m.commitCommand f, r⟩).machine.current = m.current ∧
    (editorUndo ⟨m.commitCommand f, r⟩).machine.cursor = m.cursor ∧
    (editorUndo ⟨m.commitCommand f, r⟩).active = r.map (fun t => (cancelR t).1) ∧
    (editorRedo (editorUndo ⟨m.commitCommand f, r⟩)).machine.current
      = (m.commitCommand f).current := by
  have hlt : m.cursor < m.entries.length := (List.getElem?_eq_some.mp hsnap).1
  have htake : (m.entries.take (m.cursor + 1)).length = m.cursor + 1 := by
    simp [List.length_take, Nat.min_eq_left (Nat.succ_le_of_lt hlt)]
  have hidx : (m.entries.take (m.cursor + 1) ++ [f m.current])[m.cursor]?
      = some m.current := by
    rw [List.getElem?_append_left (by rw [htake]; exact Nat.lt_succ_self _)]
    rw [List.getElem?_take, if_pos (Nat.lt_succ_self _)]
    exact hsnap
  have hundo : (editorUndo ⟨m.commitCommand f, r⟩).machine
      = { current := m.current
          entries := m.entries.take (m.cursor + 1) ++ [f m.current]
          cursor := m.cursor } := by
    show (m.commitCommand f).undoH = _
    rw [Machine.undoH,
      if_neg (show ¬((m.commitCommand f).cursor = 0) from Nat.succ_ne_zero _)]
    have : (m.commitCommand f).entries[(m.commitCommand f).cursor - 1]?
        = some m.current := hidx
    rw [this]
    rfl
  refine ⟨by rw [hundo], by rw [hundo], rfl, ?_⟩
  show ((editorUndo ⟨m.commitCommand f, r⟩).machine).redoH.current = _
  rw [hundo, Machine.redoH]
  have hidx2 : (m.entries.take (m.cursor + 1) ++ [f m.current])[m.cursor + 1]?
      = some (f m.current) := by
    rw [List.getElem?_append_right (by rw [htake])]
    rw [htake]
    simp
  rw [hidx2]
  rfl

/-- Witness for C3: one permanent Item added by a Command from an initial
one-snapshot history; undo restores the empty serialized state and cancels
the active resource, redo restores the post-command state. -/
theorem undo_redo_restore_serialized_witness :
    (editorUndo ⟨Machine.commitCommand ⟨0, [0], 0⟩ (fun s => s + 7),
        some (.node 5 .active false [])⟩).machine.current = 0 ∧
    (editorRedo (editorUndo ⟨Machine.commitCommand ⟨0, [0], 0⟩ (fun s => s + 7),
        some (.node 5 .active false [])⟩)).machine.current = 7 := by
  have h := undo_redo_restore_serialized (⟨0, [0], 0⟩ : Machine Nat)
    (fun s => s + 7) (some (.node 5 .active false [])) (by decide)
  exact ⟨h.1, h.2.2.2.trans rfl⟩

/-! ## Contour / Derived-Data Transaction Manager (C5)

`ContourManager` is not among the provided sources (only a test that uses
`contours.transaction` is); the transaction discipline is modelled from the
spec. -/

/-- The Contour Manager's view of the editable data: primary geometry and
the derived data (e.g. the planar curve network) computed from it; entries
are modelled as plain numbers. -/
structure CState where
  primary : List Nat
  derived : List Nat
deriving DecidableEq, Repr

/-- Modelled from the spec: `ContourManager.transaction(body)` (the
`ContourManager` implementation is not among the provided sources).
Captures the derived-data before-image, then runs `body` (which performs
primary mutations, may touch derived data, and may fail — its Bool is the
success flag); on success the derived data is recomputed and committed; on
any failure inside `body` or during recomputation the captured before-image
is restored — the primary mutations are NOT rolled back. -/
def transaction (body : CState → CState × Bool)
    (recompute : List Nat → Option (List Nat)) (s : CState) :
    CState × Bool :=
  let before := s.derived
  let r := body s
  if r.2 then
    match recompute r.1.primary with
    | some d => ({ r.1 with derived := d }, true)
    | none => ({ r.1 with derived := before }, false)
  else ({ r.1 with derived := before }, false)

/-- C5: whenever a transaction fails — because `body` failed or because the
derived-data recomputation failed mid-batch — the derived data after the
transaction equals the before-image captured when the transaction started
(zero net entries, no partial batch visible), while the primary-geometry
mutations performed by `body` are not rolled back. -/
theorem transaction_rollback_derived (body : CState → CState × Bool)
    (recompute : List Nat → Option (List Nat)) (s : CState)
    (hfail : (transaction body recompute s).2 = false) :
    (transaction body recompute s).1.derived = s.derived ∧
    (transaction body recompute s).1.primary = (body s).1.primary := by
  by_cases hb : (body s).2
  · cases hrec : recompute (body s).1.primary with
    | some d => simp [transaction, hb, hrec] at hfail
    | none => simp [transaction, hb, hrec]
  · simp [transaction, hb]

/-- Witness for C5: the spec's scenario — a body that appends three derived
entries (and one primary entry) and then fails; after rollback the derived
data equals the pre-transaction derived data (zero net entries), while the
primary entry survives. -/
theorem transaction_rollback_derived_witness :
    (transaction
        (fun s => ({ primary := s.primary ++ [9], derived := s.derived ++ [1, 2, 3] }, false))
        (fun p => some p) ⟨[0], [5]⟩).1.derived = [5] ∧
    (transaction
        (fun s => ({ primary := s.primary ++ [9], derived := s.derived ++ [1, 2, 3] }, false))
        (fun p => some p) ⟨[0], [5]⟩).1.primary = [0, 9] := by
  have h := transaction_rollback_derived
    (fun s => ({ primary := s.primary ++ [9], derived := s.derived ++ [1, 2, 3] }, false))
    (fun p => some p) ⟨[0], [5]⟩ rfl
  exact ⟨h.1.trans rfl, h.2.trans rfl⟩

/-! ## Command title and identifier (C9)

From src/commands/Command.ts:
`static get title() { return this.name.replace(/Command/, '') }`,
`get title() { return this.constructor.name.replace(/Command/, '') }`, and
the identifiers dasherize the titles. For a subclass, `this.name` (static)
and `this.constructor.name` (instance) are the same class-name string.
Strings are modelled as `List Char`. -/

/-- Whether `pat` is a leading segment of `s`. -/
def leadsWith : List Char → List Char → Bool
  | [], _ => true
  | _ :: _, [] => false
  | p :: ps, c :: cs => p == c && leadsWith ps cs

/-- Index of the first occurrence of a literal pattern `pat` in `s`. -/
def findOcc (pat : List Char) : List Char → Option Nat
  | [] => if pat = [] then some 0 else none
  | c :: rest =>
    if leadsWith pat (c :: rest) then some 0
    else (findOcc pat rest).map (fun k => k + 1)

/-- JS `String.prototype.replace` with a non-global literal pattern and
empty replacement (`s.replace(/pat/, '')`): removes the first occurrence of
`pat`, if any. -/
def replaceFirst (s pat : List Char) : List Char :=
  match findOcc pat s with
  | some k => s.take k ++ s.drop (k + pat.length)
  | none => s

/-- One step of underscore-plus `dasherize`: every uppercase letter becomes
a dash plus its lowercase form, every underscore becomes a dash. -/
def dashBody : List Char → List Char
  | [] => []
  | c :: rest =>
    if 'A' ≤ c ∧ c ≤ 'Z' then '-' :: c.toLower :: dashBody rest
    else if c = '_' then '-' :: dashBody rest
    else c :: dashBody rest

/-- underscore-plus `_.dasherize` (the external library function used by
`Command.identifier`): lowercases the first character, then applies the
uppercase/underscore-to-dash rewriting to the whole string. -/
def dasherize : List Char → List Char
  | [] => []
  | c :: rest => dashBody (c.toLower :: rest)

/-- `Command`'s static `title` getter: `this.name.replace(/Command/, '')`
applied to the subclass's class name. -/
def Command.staticTitle (name : List Char) : List Char :=
  replaceFirst name "Command".toList

/-- `Command`'s instance `title` getter:
`this.constructor.name.replace(/Command/, '')` — the constructor's name is
the subclass's class name. -/
def Command.instTitle (ctorName : List Char) : List Char :=
  replaceFirst ctorName "Command".toList

/-- `Command`'s static `identifier` getter: `_.dasherize(this.title)`. -/
def Command.staticIdentifier (name : List Char) : List Char :=
  dasherize (Command.staticTitle name)

/-- `Command`'s instance `identifier` getter: `_.dasherize(this.title)`. -/
def Command.instIdentifier (ctorName : List Char) : List Char :=
  dasherize (Command.instTitle ctorName)

/-- C9: for every subclass class-name string, the instance `title` getter
returns the name with the first occurrence of `"Command"` removed, the
instance `identifier` getter returns the dasherized title, and the static
getters agree with the instance getters; concrete subclasses of the source
ground the behaviour, including the first-occurrence-only removal. -/
theorem command_title_identifier (name : List Char) :
    Command.instTitle name = replaceFirst name "Command".toList ∧
    Command.instIdentifier name = dasherize (Command.instTitle name) ∧
    Command.staticTitle name = Command.instTitle name ∧
    Command.staticIdentifier name = Command.instIdentifier name ∧
    Command.instTitle "SphereCommand".toList = "Sphere".toList ∧
    Command.instIdentifier "TwoPointCircleCommand".toList
      = "two-point-circle".toList ∧
    Command.instTitle "CommandCommandX".toList = "CommandX".toList :=
  ⟨rfl, rfl, rfl, rfl, by decide, by decide, by decide⟩
